import Mathlib

/-!
# httpmultiplexer: a verification development

Shallow embedding of `httpmultiplexer/multiplexer.go`, `httpmultiplexer/opts.go` and
`httpmultiplexer/handler.go`.

* Go `int` and `time.Duration` values are only stored and compared, never computed with,
  so they are embedded as `Int` (a duration is its number of nanoseconds).
* Go errors are embedded as the chain that `errors.Is` / `errors.As` walk.
* The goroutines started through `errgroup.Group.Go` are embedded as a step function on an
  explicit state; a schedule (list of events) fixes one interleaving and what the HTTP
  client answers to each goroutine.  Loop variables `i`, `url` are per-iteration.
-/

namespace httpmultiplexer

/-! ## Errors -/

/-- A Go `error` value, seen as the chain walked by `errors.Is` and `errors.As`. -/
inductive GoError where
  /-- The sentinel `ErrTooManyURLs = errors.New("too many urls")`. -/
  | tooManyURLs : GoError
  /-- A value `ErrSlowURL{URL: URL}`. -/
  | slowURL (URL : String) : GoError
  /-- Any other error without an `Unwrap` method (context, net, json, ...). -/
  | foreign (text : String) : GoError
  /-- An error wrapping `inner`: `fmt.Errorf("text: %w", inner)`, `*url.Error`, ... -/
  | wrap (text : String) (inner : GoError) : GoError
  deriving DecidableEq, Repr

/-- The sentinel declared at multiplexer.go:44-46. -/
def ErrTooManyURLs : GoError := GoError.tooManyURLs

/-- The composite literal `ErrSlowURL{URL: url}` (multiplexer.go:48-50). -/
def ErrSlowURL (URL : String) : GoError := GoError.slowURL URL

/-- Embedding of `fmt.Errorf(text + ": %w", err)`: a fresh wrapper around `err`. -/
def Errorf (text : String) (err : GoError) : GoError := GoError.wrap text err

/-- Embedding of `errors.Is(err, target)`: every link of the chain, wrappers included, is
compared with the target by `==` before it is unwrapped.  No error of this package has an
`Is` method.  Equal values of `GoError` stand for the same Go value: for a wrapper, the
same pointer. -/
def errorsIs : GoError → GoError → Bool
  | GoError.tooManyURLs, target => decide (GoError.tooManyURLs = target)
  | GoError.slowURL u, target => decide (GoError.slowURL u = target)
  | GoError.foreign t, target => decide (GoError.foreign t = target)
  | GoError.wrap text inner, target =>
    decide (GoError.wrap text inner = target) || errorsIs inner target

/-- Embedding of `errors.As(err, &e)` for `var e ErrSlowURL`: the first link of the chain
that is an `ErrSlowURL`, if there is one; the result is its `URL` field. -/
def errorsAsSlowURL : GoError → Option String
  | GoError.tooManyURLs => none
  | GoError.slowURL u => some u
  | GoError.foreign _ => none
  | GoError.wrap _ inner => errorsAsSlowURL inner

/-! ## Configuration (multiplexer.go:15-42, opts.go) -/

/-- A `*slog.Logger`, identified by a name. -/
structure Logger where
  name : String
  deriving DecidableEq, Repr

/-- A `*http.Client`, identified by a name. -/
structure Client where
  name : String
  deriving DecidableEq, Repr

/-- The value `slog.Default()`. -/
def slogDefault : Logger := ⟨"slog.Default"⟩

/-- The value `http.DefaultClient`. -/
def httpDefaultClient : Client := ⟨"http.DefaultClient"⟩

/-- The constant `time.Millisecond`, in nanoseconds. -/
def Millisecond : Int := 1000000

/-- The constant `time.Second`, in nanoseconds. -/
def Second : Int := 1000000000

def defaultMaxURLs : Int := 20

def defaultMaxReqPerOp : Int := 4

def defaultReqTimeout : Int := Second

/-- The struct `HTTPMultiplexer` (multiplexer.go:21-28). -/
structure HTTPMultiplexer where
  maxURLs : Int
  maxReqPerOp : Int
  reqTimeout : Int
  log : Logger
  httpClient : Client
  deriving DecidableEq, Repr

/-- The type `Option` of opts.go: `func(c *HTTPMultiplexer)`, as a state transformer. -/
abbrev MuxOption := HTTPMultiplexer → HTTPMultiplexer

def WithMaxURLs (v : Int) : MuxOption := fun m => { m with maxURLs := v }

def WithMaxReqPerOp (v : Int) : MuxOption := fun m => { m with maxReqPerOp := v }

def WithReqTimout (v : Int) : MuxOption := fun m => { m with reqTimeout := v }

def WithHTTPClient (v : Client) : MuxOption := fun m => { m with httpClient := v }

def WithLogger (v : Logger) : MuxOption := fun m => { m with log := v }

/-- The constructor `New(opts ...Option)` (multiplexer.go:30-42). -/
def New (opts : List MuxOption) : HTTPMultiplexer :=
  opts.foldl (fun m opt => opt m)
    { maxURLs := defaultMaxURLs
      maxReqPerOp := defaultMaxReqPerOp
      reqTimeout := defaultReqTimeout
      log := slogDefault
      httpClient := httpDefaultClient }

/-! ## Requests, contexts and responses -/

/-- A `context.Context`, by the way it was derived. -/
inductive Context where
  /-- A context supplied by the caller. -/
  | root (name : String) : Context
  /-- The context returned by `errgroup.WithContext(parent)`: cancelled with the parent, or
  when a goroutine of the group returns an error, or when `Wait` returns. -/
  | withCancel (parent : Context) : Context
  /-- The context returned by `context.WithTimeoutCause(parent, timeout, cause)`. -/
  | withTimeoutCause (parent : Context) (timeout : Int) (cause : GoError) : Context
  deriving DecidableEq, Repr

/-- The part of an `*http.Request` made by `http.NewRequestWithContext`. -/
structure Request where
  Method : String
  URL : String
  ctx : Context
  deriving DecidableEq, Repr

/-- The method `(*http.Request).WithContext`: it returns a copy of the request carrying `ctx`
and leaves the receiver untouched. -/
def Request.WithContext (r : Request) (ctx : Context) : Request := { r with ctx := ctx }

abbrev Bytes := List Nat

abbrev Header := List (String × List String)

/-- The struct `HTTPResponse` (multiplexer.go:56-60). -/
structure HTTPResponse where
  StatusCode : Int
  Headers : Header
  Body : Bytes
  deriving DecidableEq, Repr

/-- The zero value of `HTTPResponse`, which fills `make([]HTTPResponse, n)`. -/
instance : Inhabited HTTPResponse := ⟨⟨0, [], []⟩⟩

/-- What the HTTP client and the read of the body gave one goroutine. -/
inductive DoOutcome where
  /-- The call `m.httpClient.Do(request)` returned an error. -/
  | doFailed (err : GoError) : DoOutcome
  /-- A response arrived and `io.ReadAll(response.Body)` returned an error. -/
  | readFailed (StatusCode : Int) (Header : Header) (err : GoError) : DoOutcome
  /-- A response arrived and its body was read. -/
  | ok (StatusCode : Int) (Header : Header) (body : Bytes) : DoOutcome
  deriving DecidableEq, Repr

/-- The parts of the standard library whose result depends only on their argument. -/
structure Env where
  /-- The error of `url.Parse` inside `http.NewRequestWithContext`, if any. -/
  urlParseErr : String → Option GoError
  /-- The decoder `json.Unmarshal(body, &request)`: the URLs left in the request. -/
  jsonUnmarshal : Bytes → Except GoError (List String)

/-- Embedding of `http.NewRequestWithContext(ctx, method, url, nil)` for a valid method and a
non-nil context: it fails exactly when the URL does not parse. -/
def NewRequestWithContext (env : Env) (ctx : Context) (method url : String) :
    Except GoError Request :=
  match env.urlParseErr url with
  | some err => Except.error err
  | none => Except.ok { Method := method, URL := url, ctx := ctx }

/-- Embedding of `context.WithTimeoutCause`; the cancel function is not represented. -/
def WithTimeoutCause (parent : Context) (timeout : Int) (cause : GoError) : Context :=
  Context.withTimeoutCause parent timeout cause

/-! ## The goroutine of `Multiplex` (multiplexer.go:71-96) -/

/-- The function literal passed to `eg.Go`, for one `url`, in the group context `ctx`.
`Do` is what `m.httpClient.Do` followed by `io.ReadAll` answers for the request it is
given.  The result is the goroutine's return value (the response to store in its slot, or
its error) together with the requests handed to `Do`.  As in the source, the value of
`request.WithContext(ctx)` is dropped and `Do` receives `request`. -/
def fetch (env : Env) (m : HTTPMultiplexer) (ctx : Context) (url : String)
    (Do : Request → DoOutcome) : Except GoError HTTPResponse × List Request :=
  match NewRequestWithContext env ctx "GET" url with
  | Except.error err => (Except.error (Errorf ("new request " ++ url) err), [])
  | Except.ok request =>
    let ctx1 := WithTimeoutCause ctx m.reqTimeout (ErrSlowURL url)
    let _dropped := request.WithContext ctx1
    match Do request with
    | DoOutcome.doFailed err => (Except.error (Errorf ("do request " ++ url) err), [request])
    | DoOutcome.readFailed _ _ err => (Except.error (Errorf "read response body" err), [request])
    | DoOutcome.ok status header body =>
      (Except.ok { StatusCode := status, Headers := header, Body := body }, [request])

/-! ## The error group (golang.org/x/sync/errgroup) as a step function -/

/-- One scheduling step of a `Multiplex` call. -/
inductive Event where
  /-- The loop of `Multiplex` gets past `eg.Go` for the next URL: a slot was free and the
  goroutine is started. -/
  | go : Event
  /-- The goroutine of index `i` runs to its return, the HTTP client answering `Do`. -/
  | done (i : Nat) (Do : Request → DoOutcome) : Event

/-- The state of a `Multiplex` call between two scheduling steps. -/
structure State where
  /-- Index of the next URL of the `for i, url := range urls` loop. -/
  next : Nat
  /-- Indices of the goroutines started by `eg.Go` that have not returned: each holds one
  slot of the group and it is within this span that it calls `m.httpClient.Do`. -/
  active : List Nat
  /-- The slice `results`. -/
  results : List HTTPResponse
  /-- The first error returned by a goroutine (`errOnce`); when set, the group context is
  cancelled. -/
  err : Option GoError
  /-- The requests handed to `m.httpClient.Do` so far. -/
  calls : List Request
  deriving DecidableEq, Repr

/-- Whether `eg.Go` may start a goroutine after `eg.SetLimit(limit)` while `active`
goroutines hold a slot: a negative limit is no limit, otherwise a slot must be free. -/
def admits (limit : Int) (active : Nat) : Bool :=
  decide (limit < 0) || decide ((active : Int) < limit)

/-- The URL `urls[i]`. -/
def urlAt (urls : List String) (i : Nat) : String := urls.getD i ""

/-- One step. `none` when the event cannot happen in this state. -/
def step (env : Env) (m : HTTPMultiplexer) (ctx : Context) (urls : List String) (s : State) :
    Event → Option State
  | Event.go =>
    if s.next < urls.length ∧ admits m.maxReqPerOp s.active.length = true then
      some { s with next := s.next + 1, active := s.active ++ [s.next] }
    else none
  | Event.done i Do =>
    if i ∈ s.active then
      match fetch env m ctx (urlAt urls i) Do with
      | (Except.ok response, calls) =>
        some { s with active := s.active.erase i
                      results := s.results.set i response
                      calls := s.calls ++ calls }
      | (Except.error err, calls) =>
        some { s with active := s.active.erase i
                      err := match s.err with
                        | some first => some first
                        | none => some err
                      calls := s.calls ++ calls }
    else none

/-- Run a schedule from a state. `none` when one of its events cannot happen. -/
def exec (env : Env) (m : HTTPMultiplexer) (ctx : Context) (urls : List String) :
    State → List Event → Option State
  | s, [] => some s
  | s, e :: rest =>
    match step env m ctx urls s e with
    | none => none
    | some s1 => exec env m ctx urls s1 rest

/-- The state in which `eg.Wait()` returns: the loop is over and every goroutine returned. -/
def State.finished (urls : List String) (s : State) : Bool :=
  decide (s.next = urls.length) && s.active.isEmpty

/-- What a `Multiplex` call returns, with the requests it handed to `m.httpClient.Do`. -/
structure MultiplexReturn where
  /-- The first return value; `none` is the nil slice. -/
  results : Option (List HTTPResponse)
  /-- The second return value; `none` is the nil error. -/
  err : Option GoError
  /-- The requests handed to `m.httpClient.Do` during the call. -/
  calls : List Request
  deriving DecidableEq, Repr

/-- The state after `results := make(...)`, `errgroup.WithContext`, `eg.SetLimit`. -/
def initial (urls : List String) : State :=
  { next := 0, active := [], results := List.replicate urls.length default, err := none,
    calls := [] }

/-- The method `Multiplex` (multiplexer.go:62-102) under one schedule. `none` when the
schedule is not a complete run of the call: an event of it cannot happen, or `eg.Wait()` has
not returned at its end. -/
def Multiplex (env : Env) (m : HTTPMultiplexer) (ctx : Context) (urls : List String)
    (sched : List Event) : Option MultiplexReturn :=
  if (urls.length : Int) > m.maxURLs then
    some { results := none, err := some ErrTooManyURLs, calls := [] }
  else
    match exec env m (Context.withCancel ctx) urls (initial urls) sched with
    | none => none
    | some s =>
      if s.finished urls = true then
        match s.err with
        | some err => some { results := none, err := some (Errorf "errgroup wait" err),
                             calls := s.calls }
        | none => some { results := some s.results, err := none, calls := s.calls }
      else none

/-! ## The HTTP boundary (handler.go) -/

/-- The struct `MultiplexRequest`. -/
structure MultiplexRequest where
  URLs : List String
  deriving DecidableEq, Repr

/-- The struct `MultiplexHTTPResponse`. -/
structure MultiplexHTTPResponse where
  StatusCode : Int
  Headers : Header
  Body : Bytes
  deriving DecidableEq, Repr

/-- The struct `MultiplexResponse`. -/
structure MultiplexResponse where
  HTTPResponses : List MultiplexHTTPResponse
  deriving DecidableEq, Repr

/-- What `Handler` reads of its `*http.Request`. -/
structure HTTPRequest where
  Method : String
  /-- The field `r.URL.Path`. -/
  Path : String
  /-- The result of `io.ReadAll(r.Body)`. -/
  Body : Except GoError Bytes
  /-- The value `r.Context()`. -/
  ctx : Context

/-- What was sent through the `http.ResponseWriter`. -/
structure Reply where
  status : Int
  body : String
  deriving DecidableEq, Repr

/-- One call of `m.log.Error(msg, ...)` with its `"url"` and `"error"` attributes. -/
structure LogEntry where
  msg : String
  url : Option String
  error : GoError
  deriving DecidableEq, Repr

def StatusBadRequest : Int := 400

def StatusMethodNotAllowed : Int := 405

def StatusUnprocessableEntity : Int := 422

def StatusInternalServerError : Int := 500

/-- The table `http.StatusText`, for the codes the handler uses. -/
def StatusText (code : Int) : String :=
  if code = 400 then "Bad Request"
  else if code = 405 then "Method Not Allowed"
  else if code = 422 then "Unprocessable Entity"
  else if code = 500 then "Internal Server Error"
  else ""

/-- Embedding of `http.Error(w, msg, code)`: the status line and `msg` followed by a
newline. -/
def httpError (msg : String) (code : Int) : Reply := { status := code, body := msg ++ "\n" }

/-- The method `handleError` (handler.go:49-63): the reply and the log entries. -/
def handleError (m : HTTPMultiplexer) (r : HTTPRequest) (err : GoError) :
    Reply × List LogEntry :=
  if errorsIs err ErrTooManyURLs = true then
    (httpError ("Validation: max number of urls is " ++ toString m.maxURLs) StatusBadRequest, [])
  else
    match errorsAsSlowURL err with
    | some URL => (httpError ("URL " ++ URL ++ " timed out") StatusUnprocessableEntity, [])
    | none =>
      (httpError (StatusText StatusInternalServerError) StatusInternalServerError,
        [{ msg := "Internal error at handler", url := some r.Path, error := err }])

/-- The function `toMultiplexResponse` (handler.go:65-78). -/
def toMultiplexResponse (rs : List HTTPResponse) : Except GoError MultiplexResponse :=
  Except.ok
    { HTTPResponses := rs.map (fun r =>
        { StatusCode := r.StatusCode, Headers := r.Headers, Body := r.Body }) }

/-- The function `unmarshal` (handler.go:80-89), started on the zero `MultiplexRequest`. -/
def unmarshal (env : Env) (r : HTTPRequest) : Except GoError MultiplexRequest :=
  match r.Body with
  | Except.error err => Except.error (Errorf "read request body" err)
  | Except.ok body =>
    match env.jsonUnmarshal body with
    | Except.error err => Except.error (Errorf "json unmarshal" err)
    | Except.ok urls => Except.ok { URLs := urls }

/-- The method `reply` (handler.go:91-101). `marshal` is `json.Marshal` and `writeErr` the
error of `w.Write`, if any. -/
def reply (marshal : MultiplexResponse → Except GoError String) (writeErr : Option GoError)
    (response : MultiplexResponse) : Reply × List LogEntry :=
  match marshal response with
  | Except.error _ =>
    (httpError (StatusText StatusInternalServerError) StatusInternalServerError, [])
  | Except.ok data =>
    match writeErr with
    | some err => ({ status := 200, body := data },
        [{ msg := "Error while sending response", url := none, error := err }])
    | none => ({ status := 200, body := data }, [])

/-- What one call of `Handler` did. -/
structure Served where
  reply : Reply
  logs : List LogEntry
  /-- The URL lists `Multiplex` was called with. -/
  multiplexCalls : List (List String)
  /-- The requests handed to `m.httpClient.Do`. -/
  fetches : List Request
  deriving DecidableEq, Repr

/-- The method `Handler` (handler.go:25-47), the `Multiplex` call it may make running under
`sched`. `none` when that call does not return under `sched`. -/
def Handler (env : Env) (m : HTTPMultiplexer)
    (marshal : MultiplexResponse → Except GoError String) (writeErr : Option GoError)
    (r : HTTPRequest) (sched : List Event) : Option Served :=
  if r.Method ≠ "POST" then
    some { reply := httpError (StatusText StatusMethodNotAllowed) StatusMethodNotAllowed
           logs := [], multiplexCalls := [], fetches := [] }
  else
    match unmarshal env r with
    | Except.error _ =>
      some { reply := httpError (StatusText StatusBadRequest) StatusBadRequest
             logs := [], multiplexCalls := [], fetches := [] }
    | Except.ok request =>
      match Multiplex env m r.ctx request.URLs sched with
      | none => none
      | some ret =>
        match ret.err with
        | some err =>
          some { reply := (handleError m r err).1, logs := (handleError m r err).2
                 multiplexCalls := [request.URLs], fetches := ret.calls }
        | none =>
          match toMultiplexResponse (ret.results.getD []) with
          | Except.error err =>
            some { reply := httpError (StatusText StatusInternalServerError)
                              StatusInternalServerError
                   logs := [{ msg := "Internal error at handler", url := some r.Path,
                              error := err }]
                   multiplexCalls := [request.URLs], fetches := ret.calls }
          | Except.ok response =>
            some { reply := (reply marshal writeErr response).1
                   logs := (reply marshal writeErr response).2
                   multiplexCalls := [request.URLs], fetches := ret.calls }


/-! ## Invariant of the error group -/

/-- What holds of every state a `Multiplex` call goes through: the loop index is in range,
`results` keeps its length, the goroutines holding a slot are distinct and were started,
and under a limit `n ≥ 0` at most `n` of them hold a slot. -/
structure Sound (m : HTTPMultiplexer) (urls : List String) (s : State) : Prop where
  next_le : s.next ≤ urls.length
  results_len : s.results.length = urls.length
  active_lt : ∀ i ∈ s.active, i < s.next
  active_nodup : s.active.Nodup
  active_le : 0 ≤ m.maxReqPerOp → (s.active.length : Int) ≤ m.maxReqPerOp

/-- Every goroutine that returns in `sched` returns a response: every fetch succeeds. -/
def AllSucceed (env : Env) (m : HTTPMultiplexer) (ctx : Context) (urls : List String)
    (sched : List Event) : Prop :=
  ∀ i Do, Event.done i Do ∈ sched →
    ∃ response, (fetch env m ctx (urlAt urls i) Do).1 = Except.ok response

/-- The schedule `sched` gives goroutine `i` the client answer `answers i`. -/
def Follows (answers : Nat → Request → DoOutcome) (sched : List Event) : Prop :=
  ∀ i Do, Event.done i Do ∈ sched → Do = answers i

/-! ## Test doubles -/

/-- A standard library in which every URL parses and every body decodes to no URL. -/
def testEnv : Env := { urlParseErr := fun _ => none, jsonUnmarshal := fun _ => Except.ok [] }

/-- The cause with which a context is cancelled within `delay` nanoseconds of its creation
by one of its own timeouts, if any; the outermost expired timeout gives the cause. -/
def Context.expires (delay : Int) : Context → Option GoError
  | Context.root _ => none
  | Context.withCancel parent => parent.expires delay
  | Context.withTimeoutCause parent timeout cause =>
    match parent.expires delay with
    | some c => some c
    | none => if timeout < delay then some cause else none

/-- A client double in the manner of the `httptest` server of multiplexer_test.go: the
server answers after `delay` nanoseconds, and the client honours the cancellation scope of
the request it is given, failing with the cause of that scope when it expires first. -/
def delayedServer (delay : Int) (status : Int) (header : Header) (body : Bytes) :
    Request → DoOutcome := fun request =>
  match request.ctx.expires delay with
  | some cause => DoOutcome.doFailed (GoError.wrap "Get" cause)
  | none => DoOutcome.ok status header body

/-! ## Lemmas on single steps -/

section Steps

variable (env : Env) (m : HTTPMultiplexer) (ctx : Context) (urls : List String)

theorem step_go_some {s t : State} (h : step env m ctx urls s Event.go = some t) :
    s.next < urls.length ∧ admits m.maxReqPerOp s.active.length = true ∧
      t = { s with next := s.next + 1, active := s.active ++ [s.next] } := by
  simp only [step] at h
  split_ifs at h with hc
  exact ⟨hc.1, hc.2, (Option.some.inj h).symm⟩

theorem step_done_some {s t : State} {i : Nat} {Do : Request → DoOutcome}
    (h : step env m ctx urls s (Event.done i Do) = some t) :
    i ∈ s.active ∧ t.next = s.next ∧ t.active = s.active.erase i ∧
      t.calls = s.calls ++ (fetch env m ctx (urlAt urls i) Do).2 ∧
      ((∃ response, (fetch env m ctx (urlAt urls i) Do).1 = Except.ok response ∧
          t.results = s.results.set i response ∧ t.err = s.err) ∨
       (∃ err, (fetch env m ctx (urlAt urls i) Do).1 = Except.error err ∧
          t.results = s.results ∧ t.err = some (s.err.getD err))) := by
  simp only [step] at h
  split_ifs at h with hc
  refine ⟨hc, ?_⟩
  rcases hf : fetch env m ctx (urlAt urls i) Do with ⟨res, calls⟩
  rw [hf] at h
  cases res with
  | ok response =>
    simp only [Option.some.injEq] at h
    subst h
    exact ⟨rfl, rfl, rfl, Or.inl ⟨response, rfl, rfl, rfl⟩⟩
  | error err =>
    simp only [Option.some.injEq] at h
    subst h
    refine ⟨rfl, rfl, rfl, Or.inr ⟨err, rfl, rfl, ?_⟩⟩
    cases s.err <;> rfl

theorem step_done_enabled {s : State} {i : Nat} (hi : i ∈ s.active) (Do : Request → DoOutcome) :
    ∃ t, step env m ctx urls s (Event.done i Do) = some t := by
  simp only [step]
  rw [if_pos hi]
  rcases fetch env m ctx (urlAt urls i) Do with ⟨res, calls⟩
  cases res <;> exact ⟨_, rfl⟩

theorem exec_nil (s : State) : exec env m ctx urls s [] = some s := rfl

theorem exec_cons_some {s t : State} {e : Event} {rest : List Event}
    (h : exec env m ctx urls s (e :: rest) = some t) :
    ∃ s1, step env m ctx urls s e = some s1 ∧ exec env m ctx urls s1 rest = some t := by
  unfold exec at h
  cases hs : step env m ctx urls s e with
  | none => rw [hs] at h; cases h
  | some s1 => rw [hs] at h; exact ⟨s1, rfl, h⟩

theorem exec_cons_of_step {s s1 : State} {e : Event} (rest : List Event)
    (h : step env m ctx urls s e = some s1) :
    exec env m ctx urls s (e :: rest) = exec env m ctx urls s1 rest := by
  conv_lhs => unfold exec
  rw [h]

theorem exec_append_some {s t : State} (a b : List Event) :
    exec env m ctx urls s (a ++ b) = some t ↔
      ∃ s1, exec env m ctx urls s a = some s1 ∧ exec env m ctx urls s1 b = some t := by
  induction a generalizing s with
  | nil => simp [exec_nil]
  | cons e a ih =>
    constructor
    · intro h
      obtain ⟨s1, h1, h2⟩ := exec_cons_some env m ctx urls (by simpa using h)
      obtain ⟨s2, h3, h4⟩ := (ih (s := s1)).1 h2
      exact ⟨s2, by rw [exec_cons_of_step env m ctx urls a h1]; exact h3, h4⟩
    · rintro ⟨s2, h3, h4⟩
      obtain ⟨s1, h1, h2⟩ := exec_cons_some env m ctx urls h3
      rw [List.cons_append, exec_cons_of_step env m ctx urls (a ++ b) h1]
      exact (ih (s := s1)).2 ⟨s2, h2, h4⟩

end Steps

/-! ## The invariant is kept -/

section Invariant

variable (env : Env) (m : HTTPMultiplexer) (ctx : Context) (urls : List String)

theorem sound_initial : Sound m urls (initial urls) where
  next_le := Nat.zero_le _
  results_len := by simp [initial]
  active_lt := by simp [initial]
  active_nodup := by simp [initial]
  active_le := fun h => by simpa [initial] using h

theorem sound_step {s t : State} {e : Event} (hs : Sound m urls s)
    (h : step env m ctx urls s e = some t) : Sound m urls t := by
  cases e with
  | go =>
    obtain ⟨hlt, hadm, rfl⟩ := step_go_some env m ctx urls h
    refine ⟨hlt, hs.results_len, ?_, ?_, ?_⟩
    · intro i hi
      rcases List.mem_append.1 hi with hi | hi
      · exact Nat.lt_succ_of_lt (hs.active_lt i hi)
      · rw [List.mem_singleton.1 hi]; exact Nat.lt_succ_self _
    · refine List.Nodup.append hs.active_nodup (List.nodup_singleton _) ?_
      intro a ha hb
      rw [List.mem_singleton.1 hb] at ha
      exact Nat.lt_irrefl _ (hs.active_lt _ ha)
    · intro h0
      simp only [admits, Bool.or_eq_true, decide_eq_true_eq] at hadm
      simp only [List.length_append, List.length_singleton, Nat.cast_add, Nat.cast_one]
      omega
  | done i Do =>
    obtain ⟨hi, hn, ha, -, hr⟩ := step_done_some env m ctx urls h
    have hlen : t.results.length = urls.length := by
      rcases hr with ⟨r, -, hr, -⟩ | ⟨e, -, hr, -⟩
      · rw [hr, List.length_set]; exact hs.results_len
      · rw [hr]; exact hs.results_len
    refine ⟨hn ▸ hs.next_le, hlen, ?_, ?_, ?_⟩
    · intro j hj
      rw [ha] at hj
      rw [hn]
      exact hs.active_lt j (List.mem_of_mem_erase hj)
    · rw [ha]; exact hs.active_nodup.erase i
    · intro h0
      have := hs.active_le h0
      have hle : (s.active.erase i).length ≤ s.active.length := List.length_erase_le _ _
      rw [ha]
      omega

theorem sound_exec {s t : State} {sched : List Event} (hs : Sound m urls s)
    (h : exec env m ctx urls s sched = some t) : Sound m urls t := by
  induction sched generalizing s with
  | nil => rw [exec_nil] at h; cases h; exact hs
  | cons e rest ih =>
    obtain ⟨s1, h1, h2⟩ := exec_cons_some env m ctx urls h
    exact ih (sound_step env m ctx urls hs h1) h2

/-- Every step uses up one unit of `2 * (len(urls) - next) + len(active)`. -/
theorem exec_measure {s t : State} {sched : List Event} (hs : s.next ≤ urls.length)
    (h : exec env m ctx urls s sched = some t) :
    t.next ≤ urls.length ∧
      sched.length + (2 * (urls.length - t.next) + t.active.length) =
        2 * (urls.length - s.next) + s.active.length := by
  induction sched generalizing s with
  | nil => rw [exec_nil] at h; cases h; exact ⟨hs, by simp⟩
  | cons e rest ih =>
    obtain ⟨s1, h1, h2⟩ := exec_cons_some env m ctx urls h
    cases e with
    | go =>
      obtain ⟨hlt, -, rfl⟩ := step_go_some env m ctx urls h1
      have hlt1 : s.next + 1 ≤ urls.length := hlt
      obtain ⟨hle, hm⟩ := ih (s := { s with next := s.next + 1, active := s.active ++ [s.next] })
        hlt1 h2
      refine ⟨hle, ?_⟩
      simp only [List.length_append, List.length_singleton, List.length_cons,
        List.length_nil] at hm ⊢
      omega
    | done i Do =>
      obtain ⟨hi, hn, ha, -, -⟩ := step_done_some env m ctx urls h1
      obtain ⟨hle, hm⟩ := ih (s := s1) (hn ▸ hs) h2
      refine ⟨hle, ?_⟩
      have hlen := List.length_erase_of_mem hi
      have hpos : 0 < s.active.length := List.length_pos_of_mem hi
      rw [hn, ha, hlen] at hm
      simp only [List.length_cons]
      omega

end Invariant

/-! ## The first error, the slots, the requests -/

section Runs

variable (env : Env) (m : HTTPMultiplexer) (ctx : Context) (urls : List String)

/-- While every goroutine returns a response, the recorded error does not change. -/
theorem exec_err_of_allSucceed {s t : State} {sched : List Event}
    (h : exec env m ctx urls s sched = some t) (hok : AllSucceed env m ctx urls sched) :
    t.err = s.err := by
  induction sched generalizing s with
  | nil => rw [exec_nil] at h; cases h; rfl
  | cons e rest ih =>
    obtain ⟨s1, h1, h2⟩ := exec_cons_some env m ctx urls h
    have hrest : AllSucceed env m ctx urls rest :=
      fun i Do hmem => hok i Do (List.mem_cons_of_mem _ hmem)
    rw [ih h2 hrest]
    cases e with
    | go =>
      obtain ⟨-, -, rfl⟩ := step_go_some env m ctx urls h1
      rfl
    | done i Do =>
      obtain ⟨-, -, -, -, hr⟩ := step_done_some env m ctx urls h1
      rcases hr with ⟨r, -, -, hr⟩ | ⟨e, hf, -, -⟩
      · exact hr
      · obtain ⟨r, hr⟩ := hok i Do (List.mem_cons_self _ _)
        rw [hr] at hf
        cases hf

/-- A goroutine that returns during a run held a slot at its start or was started in it. -/
theorem done_origin {s t : State} {sched : List Event} {i : Nat} {Do : Request → DoOutcome}
    (h : exec env m ctx urls s sched = some t) (hmem : Event.done i Do ∈ sched) :
    i ∈ s.active ∨ s.next ≤ i := by
  induction sched generalizing s with
  | nil => cases hmem
  | cons e rest ih =>
    obtain ⟨s1, h1, h2⟩ := exec_cons_some env m ctx urls h
    rcases List.mem_cons.1 hmem with heq | hmem
    · subst heq
      exact Or.inl (step_done_some env m ctx urls h1).1
    · have := ih h2 hmem
      cases e with
      | go =>
        obtain ⟨-, -, rfl⟩ := step_go_some env m ctx urls h1
        rcases this with hi | hi
        · rcases List.mem_append.1 hi with hi | hi
          · exact Or.inl hi
          · exact Or.inr (le_of_eq (List.mem_singleton.1 hi).symm)
        · exact Or.inr (Nat.le_of_succ_le hi)
      | done j Do1 =>
        obtain ⟨-, hn, ha, -, -⟩ := step_done_some env m ctx urls h1
        rcases this with hi | hi
        · rw [ha] at hi; exact Or.inl (List.mem_of_mem_erase hi)
        · rw [hn] at hi; exact Or.inr hi

/-- Slot `i` holds the response of the goroutine of index `i`; the other slots are left as
they were. -/
theorem exec_results {s t : State} {sched : List Event} (hs : Sound m urls s)
    (h : exec env m ctx urls s sched = some t) :
    (∀ i Do response, Event.done i Do ∈ sched →
        (fetch env m ctx (urlAt urls i) Do).1 = Except.ok response →
        t.results[i]? = some response) ∧
      (∀ j, (∀ Do, Event.done j Do ∉ sched) → t.results[j]? = s.results[j]?) := by
  induction sched generalizing s with
  | nil => rw [exec_nil] at h; cases h; exact ⟨fun _ _ _ hmem => (by cases hmem), fun _ _ => rfl⟩
  | cons e rest ih =>
    obtain ⟨s1, h1, h2⟩ := exec_cons_some env m ctx urls h
    have hs1 := sound_step env m ctx urls hs h1
    obtain ⟨ihA, ihB⟩ := ih hs1 h2
    cases e with
    | go =>
      obtain ⟨-, -, heq⟩ := step_go_some env m ctx urls h1
      refine ⟨fun i Do r hmem hf => ?_, fun j hj => ?_⟩
      · rcases List.mem_cons.1 hmem with hc | hmem
        · cases hc
        · exact ihA i Do r hmem hf
      · rw [ihB j (fun Do hmem => hj Do (List.mem_cons_of_mem _ hmem)), heq]
    | done k Do1 =>
      obtain ⟨hk, hn, ha, -, hr⟩ := step_done_some env m ctx urls h1
      have hknot : ∀ Do, Event.done k Do ∉ rest := by
        intro Do hmem
        rcases done_origin env m ctx urls h2 hmem with hin | hle
        · rw [ha] at hin
          exact hs.active_nodup.not_mem_erase hin
        · rw [hn] at hle
          exact absurd (hs.active_lt k hk) (Nat.not_lt.2 hle)
      have hklen : k < s.results.length := by
        rw [hs.results_len]
        exact Nat.lt_of_lt_of_le (hs.active_lt k hk) hs.next_le
      refine ⟨fun i Do r hmem hf => ?_, fun j hj => ?_⟩
      · rcases List.mem_cons.1 hmem with hc | hmem
        · cases hc
          rw [ihB k hknot]
          rcases hr with ⟨r1, hr1, hres, -⟩ | ⟨e, he, -, -⟩
          · rw [hf] at hr1
            cases hr1
            rw [hres, List.getElem?_set_self hklen]
          · rw [hf] at he; cases he
        · exact ihA i Do r hmem hf
      · have hjk : k ≠ j := by
          rintro rfl
          exact hj Do1 (List.mem_cons_self _ _)
        rw [ihB j (fun Do hmem => hj Do (List.mem_cons_of_mem _ hmem))]
        rcases hr with ⟨r1, -, hres, -⟩ | ⟨e, -, hres, -⟩
        · rw [hres, List.getElem?_set_ne hjk]
        · rw [hres]

/-- The loop index never goes back. -/
theorem exec_next_le {s t : State} {sched : List Event}
    (h : exec env m ctx urls s sched = some t) : s.next ≤ t.next := by
  induction sched generalizing s with
  | nil => rw [exec_nil] at h; cases h; exact Nat.le_refl _
  | cons e rest ih =>
    obtain ⟨s1, h1, h2⟩ := exec_cons_some env m ctx urls h
    refine Nat.le_trans ?_ (ih h2)
    cases e with
    | go =>
      obtain ⟨-, -, rfl⟩ := step_go_some env m ctx urls h1
      exact Nat.le_succ _
    | done i Do =>
      exact le_of_eq (step_done_some env m ctx urls h1).2.1.symm

/-- A goroutine holding a slot at the start of a run, or started during it, still holds its
slot at the end or has returned during the run. -/
theorem exec_completed {s t : State} {sched : List Event} {i : Nat}
    (h : exec env m ctx urls s sched = some t)
    (hi : i ∈ s.active ∨ (s.next ≤ i ∧ i < t.next)) :
    i ∈ t.active ∨ ∃ Do, Event.done i Do ∈ sched := by
  induction sched generalizing s with
  | nil =>
    rw [exec_nil] at h
    cases h
    rcases hi with hi | ⟨h1, h2⟩
    · exact Or.inl hi
    · exact absurd h2 (Nat.not_lt.2 h1)
  | cons e rest ih =>
    obtain ⟨s1, h1, h2⟩ := exec_cons_some env m ctx urls h
    cases e with
    | go =>
      obtain ⟨-, -, heq⟩ := step_go_some env m ctx urls h1
      have hi1 : i ∈ s1.active ∨ (s1.next ≤ i ∧ i < t.next) := by
        rw [heq]
        rcases hi with hi | ⟨hle, hlt⟩
        · exact Or.inl (List.mem_append_left _ hi)
        · rcases Nat.eq_or_lt_of_le hle with heq1 | hlt1
          · exact Or.inl (List.mem_append_right _ (List.mem_singleton.2 heq1.symm))
          · exact Or.inr ⟨hlt1, hlt⟩
      rcases ih h2 hi1 with hd | ⟨Do, hd⟩
      · exact Or.inl hd
      · exact Or.inr ⟨Do, List.mem_cons_of_mem _ hd⟩
    | done k Do1 =>
      obtain ⟨hk, hn, ha, -, -⟩ := step_done_some env m ctx urls h1
      by_cases hik : i = k
      · subst hik
        exact Or.inr ⟨Do1, List.mem_cons_self _ _⟩
      · have hi1 : i ∈ s1.active ∨ (s1.next ≤ i ∧ i < t.next) := by
          rw [ha, hn]
          rcases hi with hi | hi
          · exact Or.inl ((List.mem_erase_of_ne hik).2 hi)
          · exact Or.inr hi
        rcases ih h2 hi1 with hd | ⟨Do, hd⟩
        · exact Or.inl hd
        · exact Or.inr ⟨Do, List.mem_cons_of_mem _ hd⟩

/-- The request a goroutine hands to the client carries the context the goroutine was
given (the group context), whatever `reqTimeout` is. -/
theorem fetch_calls {url : String} {Do : Request → DoOutcome} {req : Request}
    (h : req ∈ (fetch env m ctx url Do).2) :
    req = { Method := "GET", URL := url, ctx := ctx } := by
  unfold fetch NewRequestWithContext at h
  cases hp : env.urlParseErr url with
  | some err => rw [hp] at h; simp at h
  | none =>
    rw [hp] at h
    simp only at h
    cases hd : Do { Method := "GET", URL := url, ctx := ctx } <;>
      rw [hd] at h <;> simpa using h

theorem exec_calls {s t : State} {sched : List Event} {req : Request}
    (h : exec env m ctx urls s sched = some t) (hreq : req ∈ t.calls) :
    req ∈ s.calls ∨ ∃ i, req = { Method := "GET", URL := urlAt urls i, ctx := ctx } := by
  induction sched generalizing s with
  | nil => rw [exec_nil] at h; cases h; exact Or.inl hreq
  | cons e rest ih =>
    obtain ⟨s1, h1, h2⟩ := exec_cons_some env m ctx urls h
    rcases ih h2 with hin | hex
    · cases e with
      | go =>
        obtain ⟨-, -, rfl⟩ := step_go_some env m ctx urls h1
        exact Or.inl hin
      | done i Do =>
        obtain ⟨-, -, -, hc, -⟩ := step_done_some env m ctx urls h1
        rw [hc] at hin
        rcases List.mem_append.1 hin with hin | hin
        · exact Or.inl hin
        · exact Or.inr ⟨i, fetch_calls env m ctx hin⟩
    · exact Or.inr hex

end Runs

/-! ## Progress -/

section Progress

variable (env : Env) (m : HTTPMultiplexer) (ctx : Context) (urls : List String)

theorem follows_nil (answers : Nat → Request → DoOutcome) : Follows answers [] :=
  fun _ _ h => by cases h

theorem follows_append {answers : Nat → Request → DoOutcome} {a b : List Event}
    (ha : Follows answers a) (hb : Follows answers b) : Follows answers (a ++ b) :=
  fun i Do h => (List.mem_append.1 h).elim (ha i Do) (hb i Do)

theorem follows_cons_done {answers : Nat → Request → DoOutcome} {i : Nat} {b : List Event}
    (hb : Follows answers b) : Follows answers (Event.done i (answers i) :: b) := by
  intro j Do h
  rcases List.mem_cons.1 h with h | h
  · cases h; rfl
  · exact hb j Do h

theorem follows_cons_go {answers : Nat → Request → DoOutcome} {b : List Event}
    (hb : Follows answers b) : Follows answers (Event.go :: b) := by
  intro j Do h
  rcases List.mem_cons.1 h with h | h
  · cases h
  · exact hb j Do h

/-- The goroutines holding a slot can all return, whatever the client answers them. -/
theorem drain (answers : Nat → Request → DoOutcome) (l : List Nat) :
    ∀ s : State, s.active = l →
      ∃ rest t, Follows answers rest ∧ exec env m ctx urls s rest = some t ∧
        t.active = [] ∧ t.next = s.next := by
  induction l with
  | nil => exact fun s hs => ⟨[], s, follows_nil answers, rfl, hs, rfl⟩
  | cons a l ih =>
    intro s hs
    have ha : a ∈ s.active := by rw [hs]; exact List.mem_cons_self _ _
    obtain ⟨s1, h1⟩ := step_done_enabled env m ctx urls ha (answers a)
    obtain ⟨-, hn, hact, -, -⟩ := step_done_some env m ctx urls h1
    have hl : s1.active = l := by rw [hact, hs, List.erase_cons_head]
    obtain ⟨rest, t, hf, hrun, hta, htn⟩ := ih s1 hl
    refine ⟨Event.done a (answers a) :: rest, t, follows_cons_done hf, ?_, hta, htn.trans hn⟩
    rw [exec_cons_of_step env m ctx urls rest h1]
    exact hrun

/-- With no goroutine holding a slot and a limit other than zero, the remaining URLs can be
fetched one after the other until `eg.Wait()` returns. -/
theorem launch_all (hlim : m.maxReqPerOp ≠ 0) (answers : Nat → Request → DoOutcome)
    (k : Nat) :
    ∀ s : State, s.active = [] → s.next + k = urls.length →
      ∃ rest t, Follows answers rest ∧ exec env m ctx urls s rest = some t ∧
        t.finished urls = true := by
  induction k with
  | zero =>
    intro s ha hn
    refine ⟨[], s, follows_nil answers, rfl, ?_⟩
    simp only [State.finished, Bool.and_eq_true, decide_eq_true_eq]
    exact ⟨by omega, by rw [ha]; rfl⟩
  | succ k ih =>
    intro s ha hn
    have hadm : admits m.maxReqPerOp s.active.length = true := by
      simp only [admits, ha, List.length_nil, Bool.or_eq_true, decide_eq_true_eq,
        Nat.cast_zero]
      omega
    obtain ⟨s1, h1, hn1, ha1⟩ : ∃ s1, step env m ctx urls s Event.go = some s1 ∧
        s1.next = s.next + 1 ∧ s1.active = [s.next] := by
      simp only [step]
      rw [if_pos ⟨by omega, hadm⟩]
      exact ⟨_, rfl, rfl, by simp [ha]⟩
    have hmem : s.next ∈ s1.active := by rw [ha1]; exact List.mem_singleton.2 rfl
    obtain ⟨s2, h2⟩ := step_done_enabled env m ctx urls hmem (answers s.next)
    obtain ⟨-, hn2, hact2, -, -⟩ := step_done_some env m ctx urls h2
    have ha2 : s2.active = [] := by
      rw [hact2, ha1]
      simp
    have hk : s2.next + k = urls.length := by
      rw [hn2, hn1]
      omega
    obtain ⟨rest, t, hf, hrun, hfin⟩ := ih s2 ha2 hk
    refine ⟨Event.go :: Event.done s.next (answers s.next) :: rest, t,
      follows_cons_go (follows_cons_done hf), ?_, hfin⟩
    rw [exec_cons_of_step env m ctx urls _ h1, exec_cons_of_step env m ctx urls _ h2]
    exact hrun

/-- From every state with the loop index in range, under a limit other than zero, the call
can run on until `eg.Wait()` returns, whatever the client answers each goroutine. -/
theorem progress (hlim : m.maxReqPerOp ≠ 0) (answers : Nat → Request → DoOutcome)
    {s : State} (hs : s.next ≤ urls.length) :
    ∃ rest t, Follows answers rest ∧ exec env m ctx urls s rest = some t ∧
      t.finished urls = true := by
  obtain ⟨r1, t1, hf1, h1, ha1, hn1⟩ := drain env m ctx urls answers s.active s rfl
  have hk : t1.next + (urls.length - t1.next) = urls.length := by omega
  obtain ⟨r2, t2, hf2, h2, hfin⟩ := launch_all env m ctx urls hlim answers _ t1 ha1 hk
  exact ⟨r1 ++ r2, t2, follows_append hf1 hf2,
    (exec_append_some env m ctx urls r1 r2).2 ⟨t1, h1, h2⟩, hfin⟩

/-- With no URL to fetch, every state of the call is one in which `eg.Wait()` returns. -/
theorem finished_of_no_url {s : State} (hu : urls = []) (hs : Sound m urls s) :
    s.finished urls = true := by
  have hn : s.next = 0 := by
    have := hs.next_le
    rw [hu] at this
    exact Nat.le_zero.1 this
  have ha : s.active = [] := by
    apply List.eq_nil_iff_forall_not_mem.2
    intro i hi
    have := hs.active_lt i hi
    rw [hn] at this
    exact Nat.not_lt_zero _ this
  simp [State.finished, hn, ha, hu]

/-- Under the limit zero no goroutine is ever started: the only run is the empty one. -/
theorem limit_zero_run {s t : State} {sched : List Event} (hlim : m.maxReqPerOp = 0)
    (ha : s.active = []) (h : exec env m ctx urls s sched = some t) : sched = [] := by
  cases sched with
  | nil => rfl
  | cons e rest =>
    obtain ⟨s1, h1, -⟩ := exec_cons_some env m ctx urls h
    cases e with
    | go =>
      obtain ⟨-, hadm, -⟩ := step_go_some env m ctx urls h1
      simp [admits, hlim, ha] at hadm
    | done i Do =>
      have := (step_done_some env m ctx urls h1).1
      rw [ha] at this
      cases this

end Progress

/-! ## Chains of errors -/

section Goroutine

variable (env : Env) (m : HTTPMultiplexer) (ctx : Context)

/-- A goroutine stores exactly the status, headers and body the client gave it. -/
theorem fetch_ok {url : String} {Do : Request → DoOutcome} {response : HTTPResponse}
    (h : (fetch env m ctx url Do).1 = Except.ok response) :
    ∃ status header body,
      Do { Method := "GET", URL := url, ctx := ctx } = DoOutcome.ok status header body ∧
      response = { StatusCode := status, Headers := header, Body := body } := by
  unfold fetch NewRequestWithContext at h
  cases hp : env.urlParseErr url with
  | some err => rw [hp] at h; cases h
  | none =>
    rw [hp] at h
    simp only at h
    cases hd : Do { Method := "GET", URL := url, ctx := ctx } with
    | doFailed err => rw [hd] at h; cases h
    | readFailed st hd1 err => rw [hd] at h; cases h
    | ok st hd1 bd =>
      rw [hd] at h
      cases h
      exact ⟨st, hd1, bd, rfl, rfl⟩

end Goroutine

section Started

variable (env : Env) (m : HTTPMultiplexer) (ctx : Context) (urls : List String)

/-- A goroutine that returned during a run was started: its index is below the loop index. -/
theorem done_lt {s t : State} {sched : List Event} {i : Nat} {Do : Request → DoOutcome}
    (hs : Sound m urls s) (h : exec env m ctx urls s sched = some t)
    (hmem : Event.done i Do ∈ sched) : i < t.next := by
  induction sched generalizing s with
  | nil => cases hmem
  | cons e rest ih =>
    obtain ⟨s1, h1, h2⟩ := exec_cons_some env m ctx urls h
    rcases List.mem_cons.1 hmem with heq | hmem
    · subst heq
      have hi := (step_done_some env m ctx urls h1).1
      exact Nat.lt_of_lt_of_le (hs.active_lt i hi) (exec_next_le env m ctx urls h)
    · exact ih (sound_step env m ctx urls hs h1) h2 hmem

end Started

/-! ## `Multiplex` and its runs -/

section Calls

variable (env : Env) (m : HTTPMultiplexer) (ctx : Context) (urls : List String)

/-- What a returned value of an accepted call says about the run behind it. -/
theorem multiplex_accepted {sched : List Event} {r : MultiplexReturn}
    (hlen : (urls.length : Int) ≤ m.maxURLs) (h : Multiplex env m ctx urls sched = some r) :
    ∃ s, exec env m (Context.withCancel ctx) urls (initial urls) sched = some s ∧
      s.finished urls = true ∧ r.calls = s.calls ∧
      ((∃ err, s.err = some err ∧ r.results = none ∧
          r.err = some (Errorf "errgroup wait" err)) ∨
        (s.err = none ∧ r.results = some s.results ∧ r.err = none)) := by
  unfold Multiplex at h
  rw [if_neg (not_lt.2 hlen)] at h
  cases hx : exec env m (Context.withCancel ctx) urls (initial urls) sched with
  | none => rw [hx] at h; cases h
  | some s =>
    rw [hx] at h
    simp only at h
    split_ifs at h with hfin
    refine ⟨s, rfl, hfin, ?_⟩
    cases he : s.err with
    | none =>
      rw [he] at h
      cases h
      exact ⟨rfl, Or.inr ⟨rfl, rfl, rfl⟩⟩
    | some err =>
      rw [he] at h
      cases h
      exact ⟨rfl, Or.inl ⟨err, rfl, rfl, rfl⟩⟩

/-- An accepted call returns at the end of every run that reaches `eg.Wait()`'s return. -/
theorem multiplex_of_finished {sched : List Event} {s : State}
    (hlen : (urls.length : Int) ≤ m.maxURLs)
    (h : exec env m (Context.withCancel ctx) urls (initial urls) sched = some s)
    (hfin : s.finished urls = true) : ∃ r, Multiplex env m ctx urls sched = some r := by
  unfold Multiplex
  rw [if_neg (not_lt.2 hlen), h]
  simp only [hfin, if_true]
  cases s.err <;> exact ⟨_, rfl⟩

/-- Every run of an accepted call that has not returned can be continued until it does,
when a goroutine can be started at all or there is no URL to fetch. -/
theorem multiplex_extends {sched : List Event} {s : State}
    (hlen : (urls.length : Int) ≤ m.maxURLs) (hlim : m.maxReqPerOp = 0 → urls = [])
    (answers : Nat → Request → DoOutcome)
    (h : exec env m (Context.withCancel ctx) urls (initial urls) sched = some s) :
    ∃ rest r, Follows answers rest ∧ Multiplex env m ctx urls (sched ++ rest) = some r := by
  have hs := sound_exec env m (Context.withCancel ctx) urls (sound_initial m urls) h
  by_cases h0 : m.maxReqPerOp = 0
  · have hfin := finished_of_no_url m urls (hlim h0) hs
    obtain ⟨r, hr⟩ := multiplex_of_finished env m ctx urls hlen
      ((exec_append_some env m (Context.withCancel ctx) urls sched []).2 ⟨s, h, rfl⟩) hfin
    exact ⟨[], r, follows_nil answers, hr⟩
  · obtain ⟨rest, t, hf, hrun, hfin⟩ :=
      progress env m (Context.withCancel ctx) urls h0 answers hs.next_le
    obtain ⟨r, hr⟩ := multiplex_of_finished env m ctx urls hlen
      ((exec_append_some env m (Context.withCancel ctx) urls sched rest).2 ⟨s, h, hrun⟩) hfin
    exact ⟨rest, r, hf, hr⟩

end Calls

/-! ## The claims -/

/-- C1. For every configuration and every URL list with `len(urls) > maxURLs`, under every
schedule `Multiplex` returns the nil slice and `ErrTooManyURLs`, and no request is handed to
`httpClient.Do`. -/
theorem multiplex_too_many_urls (env : Env) (m : HTTPMultiplexer) (ctx : Context)
    (urls : List String) (sched : List Event) (h : (urls.length : Int) > m.maxURLs) :
    Multiplex env m ctx urls sched =
      some { results := none, err := some ErrTooManyURLs, calls := [] } := by
  unfold Multiplex
  rw [if_pos h]

/-- C1, at `maxURLs = 5` and six URLs. -/
theorem multiplex_too_many_urls_witness :
    Multiplex testEnv (New [WithMaxURLs 5]) (Context.root "bg")
        ["u1", "u2", "u3", "u4", "u5", "u6"] [Event.go] =
      some { results := none, err := some ErrTooManyURLs, calls := [] } :=
  multiplex_too_many_urls testEnv (New [WithMaxURLs 5]) (Context.root "bg")
    ["u1", "u2", "u3", "u4", "u5", "u6"] [Event.go] (by decide)

/-- C5. For every `maxReqPerOp ≥ 1` and every batch, in every state a `Multiplex` call goes
through, at most `maxReqPerOp` goroutines hold a slot of the group, so at most `maxReqPerOp`
calls of `httpClient.Do` are in flight. -/
theorem multiplex_concurrency_bound (env : Env) (m : HTTPMultiplexer) (ctx : Context)
    (urls : List String) (sched : List Event) (s : State) (hlim : 1 ≤ m.maxReqPerOp)
    (hrun : exec env m (Context.withCancel ctx) urls (initial urls) sched = some s) :
    (s.active.length : Int) ≤ m.maxReqPerOp :=
  (sound_exec env m (Context.withCancel ctx) urls (sound_initial m urls) hrun).active_le
    (le_trans (by decide) hlim)

/-- C5, at `maxReqPerOp = 2` and ten URLs: after two goroutines are started two slots are
held, and a third cannot be started before one of them returns. -/
theorem multiplex_concurrency_bound_witness :
    (∃ s, exec testEnv (New [WithMaxReqPerOp 2]) (Context.withCancel (Context.root "bg"))
        ["u1", "u2", "u3", "u4", "u5", "u6", "u7", "u8", "u9", "u10"]
        (initial ["u1", "u2", "u3", "u4", "u5", "u6", "u7", "u8", "u9", "u10"])
        [Event.go, Event.go] = some s ∧
      (s.active.length : Int) ≤ (New [WithMaxReqPerOp 2]).maxReqPerOp) ∧
    exec testEnv (New [WithMaxReqPerOp 2]) (Context.withCancel (Context.root "bg"))
        ["u1", "u2", "u3", "u4", "u5", "u6", "u7", "u8", "u9", "u10"]
        (initial ["u1", "u2", "u3", "u4", "u5", "u6", "u7", "u8", "u9", "u10"])
        [Event.go, Event.go, Event.go] = none :=
  ⟨⟨_, rfl, multiplex_concurrency_bound testEnv (New [WithMaxReqPerOp 2]) (Context.root "bg")
      ["u1", "u2", "u3", "u4", "u5", "u6", "u7", "u8", "u9", "u10"] [Event.go, Event.go] _
      (by decide) rfl⟩, rfl⟩

/-- C2, amended. For every URL list with `len(urls) <= maxURLs` and every limit
`maxReqPerOp` other than zero (or any limit when the list is empty), when every fetch
succeeds (whatever the client answers goroutine `i`, the goroutine returns a response):
every run has at most `2 * len(urls)` steps and can be continued until `Multiplex` returns;
and under every schedule at whose end `Multiplex` returns, it returns the nil error and a
slice of the length of the input whose entry `i` holds the status, headers and body the
client gave for `urls[i]`. -/
theorem multiplex_ordered_results (env : Env) (m : HTTPMultiplexer) (ctx : Context)
    (urls : List String) (answers : Nat → Request → DoOutcome)
    (hlen : (urls.length : Int) ≤ m.maxURLs) (hlim : m.maxReqPerOp = 0 → urls = [])
    (hok : ∀ i, i < urls.length → ∃ response,
      (fetch env m (Context.withCancel ctx) (urlAt urls i) (answers i)).1 =
        Except.ok response) :
    (∀ sched s, Follows answers sched →
        exec env m (Context.withCancel ctx) urls (initial urls) sched = some s →
        sched.length ≤ 2 * urls.length ∧
          ∃ rest r, Follows answers rest ∧
            Multiplex env m ctx urls (sched ++ rest) = some r) ∧
    (∀ sched r, Follows answers sched → Multiplex env m ctx urls sched = some r →
        r.err = none ∧ ∃ rs, r.results = some rs ∧ rs.length = urls.length ∧
          ∀ i, i < urls.length → ∃ status header body,
            answers i { Method := "GET", URL := urlAt urls i, ctx := Context.withCancel ctx } =
              DoOutcome.ok status header body ∧
            rs[i]? = some { StatusCode := status, Headers := header, Body := body }) := by
  refine ⟨fun sched s _ hrun => ⟨?_, multiplex_extends env m ctx urls hlen hlim answers hrun⟩,
    fun sched r hfol hret => ?_⟩
  · have hm := (exec_measure env m (Context.withCancel ctx) urls
      (s := initial urls) (Nat.zero_le _) hrun).2
    simp only [initial, List.length_nil] at hm
    omega
  · obtain ⟨s, hrun, hfin, -, hr⟩ := multiplex_accepted env m ctx urls hlen hret
    have hsound := sound_exec env m (Context.withCancel ctx) urls (sound_initial m urls) hrun
    have hall : AllSucceed env m (Context.withCancel ctx) urls sched := by
      intro i Do hmem
      have hi : i < urls.length :=
        Nat.lt_of_lt_of_le
          (done_lt env m (Context.withCancel ctx) urls (sound_initial m urls) hrun hmem)
          hsound.next_le
      rw [hfol i Do hmem]
      exact hok i hi
    have herr : s.err = none :=
      exec_err_of_allSucceed env m (Context.withCancel ctx) urls hrun hall
    rcases hr with ⟨err, he, -, -⟩ | ⟨-, hres, hnil⟩
    · rw [herr] at he; cases he
    · refine ⟨hnil, s.results, hres, hsound.results_len, fun i hi => ?_⟩
      simp only [State.finished, Bool.and_eq_true, decide_eq_true_eq,
        List.isEmpty_iff] at hfin
      obtain ⟨response, hresp⟩ := hok i hi
      obtain ⟨status, header, body, hdo, rfl⟩ :=
        fetch_ok env m (Context.withCancel ctx) hresp
      refine ⟨status, header, body, hdo, ?_⟩
      have hdone := exec_completed env m (Context.withCancel ctx) urls (i := i) hrun
        (Or.inr ⟨Nat.zero_le _, by rw [hfin.1]; exact hi⟩)
      rcases hdone with hact | ⟨Do, hmem⟩
      · rw [hfin.2] at hact; cases hact
      · have hDo := hfol i Do hmem
        subst hDo
        exact (exec_results env m (Context.withCancel ctx) urls (sound_initial m urls)
          hrun).1 i _ _ hmem hresp

/-- C2 (amended), at three URLs under the limit 2, the fetches returning in the order
1, 2, 0: the slots are filled in the order of the input. -/
theorem multiplex_ordered_results_witness :
    Multiplex testEnv (New [WithMaxReqPerOp 2]) (Context.root "bg") ["u0", "u1", "u2"]
        [Event.go, Event.go, Event.done 1 (fun _ => DoOutcome.ok 200 [] [1]), Event.go,
          Event.done 2 (fun _ => DoOutcome.ok 200 [] [2]),
          Event.done 0 (fun _ => DoOutcome.ok 200 [] [0])] =
      some { results := some [⟨200, [], [0]⟩, ⟨200, [], [1]⟩, ⟨200, [], [2]⟩], err := none,
             calls := [⟨"GET", "u1", Context.withCancel (Context.root "bg")⟩,
                       ⟨"GET", "u2", Context.withCancel (Context.root "bg")⟩,
                       ⟨"GET", "u0", Context.withCancel (Context.root "bg")⟩] } ∧
    ∃ rs, some [(⟨200, [], [0]⟩ : HTTPResponse), ⟨200, [], [1]⟩, ⟨200, [], [2]⟩] = some rs ∧
      rs.length = 3 ∧
      ∀ i, i < 3 → ∃ status header body,
        DoOutcome.ok 200 [] [i] = DoOutcome.ok status header body ∧
        rs[i]? = some { StatusCode := status, Headers := header, Body := body } :=
  ⟨rfl,
    ((multiplex_ordered_results testEnv (New [WithMaxReqPerOp 2]) (Context.root "bg")
      ["u0", "u1", "u2"] (fun i _ => DoOutcome.ok 200 [] [i]) (by decide) (by decide)
      (fun _ _ => ⟨_, rfl⟩)).2
      [Event.go, Event.go, Event.done 1 (fun _ => DoOutcome.ok 200 [] [1]), Event.go,
        Event.done 2 (fun _ => DoOutcome.ok 200 [] [2]),
        Event.done 0 (fun _ => DoOutcome.ok 200 [] [0])] _
      (by
        intro i Do h
        simp only [List.mem_cons, Event.done.injEq, reduceCtorEq, List.mem_singleton,
          false_or, List.not_mem_nil, or_false] at h
        rcases h with ⟨rfl, rfl⟩ | ⟨rfl, rfl⟩ | ⟨rfl, rfl⟩ <;> rfl)
      rfl).2⟩

/-- C2 as stated fails at the limit zero: with `maxReqPerOp = 0` and one URL whose fetch
would succeed, the batch is accepted and `Multiplex` returns under no schedule, because
`eg.Go` never finds a free slot. -/
theorem multiplex_limit_zero_never_returns :
    ((["http://a"].length : Int) ≤ (New [WithMaxReqPerOp 0]).maxURLs) ∧
    (∃ response, (fetch testEnv (New [WithMaxReqPerOp 0]) (Context.withCancel (Context.root "bg"))
        (urlAt ["http://a"] 0) (fun _ => DoOutcome.ok 200 [] [])).1 = Except.ok response) ∧
    ¬ ∃ sched r, Multiplex testEnv (New [WithMaxReqPerOp 0]) (Context.root "bg")
        ["http://a"] sched = some r := by
  refine ⟨by decide, ⟨_, rfl⟩, ?_⟩
  rintro ⟨sched, r, h⟩
  obtain ⟨s, hrun, hfin, -, -⟩ := multiplex_accepted testEnv (New [WithMaxReqPerOp 0])
    (Context.root "bg") ["http://a"] (by decide) h
  have hnil := limit_zero_run testEnv (New [WithMaxReqPerOp 0])
    (Context.withCancel (Context.root "bg")) ["http://a"] rfl rfl hrun
  subst hnil
  rw [exec_nil] at hrun
  cases hrun
  revert hfin
  decide

/-- The result of a goroutine does not depend on `reqTimeout`. -/
theorem fetch_reqTimeout (env : Env) (m : HTTPMultiplexer) (ctx : Context) (url : String)
    (Do : Request → DoOutcome) (t : Int) :
    fetch env (WithReqTimout t m) ctx url Do = fetch env m ctx url Do := rfl

theorem step_reqTimeout (env : Env) (m : HTTPMultiplexer) (ctx : Context)
    (urls : List String) (t : Int) (s : State) (e : Event) :
    step env (WithReqTimout t m) ctx urls s e = step env m ctx urls s e := by
  cases e <;> rfl

theorem exec_reqTimeout (env : Env) (m : HTTPMultiplexer) (ctx : Context)
    (urls : List String) (t : Int) (s : State) (sched : List Event) :
    exec env (WithReqTimout t m) ctx urls s sched = exec env m ctx urls s sched := by
  induction sched generalizing s with
  | nil => rfl
  | cons e rest ih =>
    unfold exec
    rw [step_reqTimeout]
    cases step env m ctx urls s e with
    | none => rfl
    | some s1 => exact ih s1

/-- Every request handed to the client by a `Multiplex` call carries the group context. -/
theorem multiplex_calls_scope (env : Env) (m : HTTPMultiplexer) (ctx : Context)
    (urls : List String) (sched : List Event) (r : MultiplexReturn) (req : Request)
    (h : Multiplex env m ctx urls sched = some r) (hreq : req ∈ r.calls) :
    ∃ i, req = { Method := "GET", URL := urlAt urls i, ctx := Context.withCancel ctx } := by
  by_cases hlen : (urls.length : Int) ≤ m.maxURLs
  · obtain ⟨s, hrun, -, hcalls, -⟩ := multiplex_accepted env m ctx urls hlen h
    rw [hcalls] at hreq
    rcases exec_calls env m (Context.withCancel ctx) urls hrun hreq with hin | hex
    · simp [initial] at hin
    · exact hex
  · unfold Multiplex at h
    rw [if_pos (not_le.1 hlen)] at h
    cases h
    cases hreq

/-- C3 fails on the code. A `Multiplex` call returns the same under every `reqTimeout`;
at one URL, `reqTimeout = 10ms` and a server answering after 50ms, the client double
honouring the scope of its request, `Multiplex` returns the response and the nil error,
where the claim has an error classified `ErrSlowURL`; the same double fails with
`ErrSlowURL` when it is given the copy of the request that `request.WithContext(ctx)`
returns. -/
theorem multiplex_slow_url_not_reported :
    (∀ (env : Env) (m : HTTPMultiplexer) (ctx : Context) (urls : List String)
        (sched : List Event) (t : Int),
      Multiplex env (WithReqTimout t m) ctx urls sched = Multiplex env m ctx urls sched) ∧
    Multiplex testEnv (New [WithReqTimout (10 * Millisecond)]) (Context.root "bg")
        ["http://slow"]
        [Event.go, Event.done 0 (delayedServer (50 * Millisecond) 200 [] [1])] =
      some { results := some [⟨200, [], [1]⟩], err := none,
             calls := [⟨"GET", "http://slow", Context.withCancel (Context.root "bg")⟩] } ∧
    delayedServer (50 * Millisecond) 200 [] [1]
        (Request.WithContext ⟨"GET", "http://slow", Context.withCancel (Context.root "bg")⟩
          (WithTimeoutCause (Context.withCancel (Context.root "bg")) (10 * Millisecond)
            (ErrSlowURL "http://slow"))) =
      DoOutcome.doFailed (GoError.wrap "Get" (ErrSlowURL "http://slow")) := by
  refine ⟨fun env m ctx urls sched t => ?_, by decide, by decide⟩
  unfold Multiplex
  rw [exec_reqTimeout]
  rfl

/-- C8 fails on the code. Every request handed to `httpClient.Do` carries the shared group
context, which is not the per-fetch timeout context derived from it with `reqTimeout` and
`ErrSlowURL{URL: url}`; so it is at one URL under the default configuration. -/
theorem multiplex_do_request_scope :
    (∀ (env : Env) (m : HTTPMultiplexer) (ctx : Context) (urls : List String)
        (sched : List Event) (r : MultiplexReturn) (req : Request),
      Multiplex env m ctx urls sched = some r → req ∈ r.calls →
        req.ctx = Context.withCancel ctx ∧
        req.ctx ≠ WithTimeoutCause (Context.withCancel ctx) m.reqTimeout
          (ErrSlowURL req.URL)) ∧
    Multiplex testEnv (New []) (Context.root "bg") ["http://a"]
        [Event.go, Event.done 0 (fun _ => DoOutcome.ok 200 [] [])] =
      some { results := some [⟨200, [], []⟩], err := none,
             calls := [⟨"GET", "http://a", Context.withCancel (Context.root "bg")⟩] } ∧
    Context.withCancel (Context.root "bg") ≠
      WithTimeoutCause (Context.withCancel (Context.root "bg")) (New []).reqTimeout
        (ErrSlowURL "http://a") := by
  refine ⟨fun env m ctx urls sched r req h hreq => ?_, by decide, by decide⟩
  obtain ⟨i, rfl⟩ := multiplex_calls_scope env m ctx urls sched r req h hreq
  exact ⟨rfl, by simp [WithTimeoutCause]⟩

/-! ## The boundary and the constructor -/

/-- C6. For every error, `handleError` gives one reply by class: an error for which
`errors.Is(err, ErrTooManyURLs)` holds gives status 400; otherwise an error from which
`errors.As` extracts an `ErrSlowURL` gives status 422 and a body naming its URL; every
other error gives status 500 with the generic status text alone, and the error goes to the
log only. -/
theorem handleError_by_class (m : HTTPMultiplexer) (r : HTTPRequest) (err : GoError) :
    (errorsIs err ErrTooManyURLs = true →
      handleError m r err =
        ({ status := 400,
           body := "Validation: max number of urls is " ++ toString m.maxURLs ++ "\n" }, [])) ∧
    (errorsIs err ErrTooManyURLs = false → ∀ URL, errorsAsSlowURL err = some URL →
      handleError m r err =
        ({ status := 422, body := "URL " ++ URL ++ " timed out" ++ "\n" }, [])) ∧
    (errorsIs err ErrTooManyURLs = false → errorsAsSlowURL err = none →
      handleError m r err =
        ({ status := 500, body := "Internal Server Error\n" },
          [{ msg := "Internal error at handler", url := some r.Path, error := err }])) := by
  refine ⟨fun h => ?_, fun h URL hu => ?_, fun h hu => ?_⟩
  · unfold handleError
    rw [if_pos h]
    rfl
  · unfold handleError
    rw [if_neg (by rw [h]; exact Bool.false_ne_true), hu]
    rfl
  · unfold handleError
    rw [if_neg (by rw [h]; exact Bool.false_ne_true), hu]
    rfl

/-- C6, at the three kinds of error `Multiplex` returns. -/
theorem handleError_by_class_witness :
    handleError (New []) ⟨"POST", "/multiplex", Except.ok [], Context.root "bg"⟩
        ErrTooManyURLs =
      ({ status := 400, body := "Validation: max number of urls is 20\n" }, []) ∧
    handleError (New []) ⟨"POST", "/multiplex", Except.ok [], Context.root "bg"⟩
        (Errorf "errgroup wait" (Errorf "do request u" (ErrSlowURL "u"))) =
      ({ status := 422, body := "URL u timed out\n" }, []) ∧
    handleError (New []) ⟨"POST", "/multiplex", Except.ok [], Context.root "bg"⟩
        (Errorf "errgroup wait" (Errorf "do request u" (GoError.foreign "refused"))) =
      ({ status := 500, body := "Internal Server Error\n" },
        [{ msg := "Internal error at handler", url := some "/multiplex",
           error := Errorf "errgroup wait" (Errorf "do request u" (GoError.foreign "refused")) }]) :=
  ⟨(handleError_by_class (New []) ⟨"POST", "/multiplex", Except.ok [], Context.root "bg"⟩
      ErrTooManyURLs).1 rfl,
    (handleError_by_class (New []) ⟨"POST", "/multiplex", Except.ok [], Context.root "bg"⟩
      (Errorf "errgroup wait" (Errorf "do request u" (ErrSlowURL "u")))).2.1 rfl "u" rfl,
    (handleError_by_class (New []) ⟨"POST", "/multiplex", Except.ok [], Context.root "bg"⟩
      (Errorf "errgroup wait" (Errorf "do request u" (GoError.foreign "refused")))).2.2
      rfl rfl⟩

/-- C9. Under every schedule `Handler` replies 405 Method Not Allowed to every request
whose method is not POST, and 400 Bad Request to every POST request whose body cannot be
read or does not decode; in both cases `Multiplex` is not called and no request is handed
to the client. -/
theorem handler_rejects (env : Env) (m : HTTPMultiplexer)
    (marshal : MultiplexResponse → Except GoError String) (writeErr : Option GoError)
    (r : HTTPRequest) (sched : List Event) :
    (r.Method ≠ "POST" →
      Handler env m marshal writeErr r sched =
        some { reply := { status := 405, body := "Method Not Allowed\n" }, logs := [],
               multiplexCalls := [], fetches := [] }) ∧
    (r.Method = "POST" →
      ((∃ err, r.Body = Except.error err) ∨
        ∃ body err, r.Body = Except.ok body ∧ env.jsonUnmarshal body = Except.error err) →
      Handler env m marshal writeErr r sched =
        some { reply := { status := 400, body := "Bad Request\n" }, logs := [],
               multiplexCalls := [], fetches := [] }) := by
  refine ⟨fun h => ?_, fun h hbad => ?_⟩
  · unfold Handler
    rw [if_pos h]
    rfl
  · have hun : ∃ err, unmarshal env r = Except.error err := by
      unfold unmarshal
      rcases hbad with ⟨err, hb⟩ | ⟨body, err, hb, hj⟩
      · rw [hb]; exact ⟨_, rfl⟩
      · rw [hb]
        simp only
        rw [hj]
        exact ⟨_, rfl⟩
    obtain ⟨err, herr⟩ := hun
    unfold Handler
    rw [if_neg (by rw [h]; exact fun hne => hne rfl), herr]
    rfl

/-- C9, at a GET request, a POST request with an unreadable body and a POST request whose
body does not decode. -/
theorem handler_rejects_witness :
    Handler testEnv (New []) (fun _ => Except.ok "") none
        ⟨"GET", "/multiplex", Except.ok [], Context.root "bg"⟩ [] =
      some { reply := { status := 405, body := "Method Not Allowed\n" }, logs := [],
             multiplexCalls := [], fetches := [] } ∧
    Handler testEnv (New []) (fun _ => Except.ok "") none
        ⟨"POST", "/multiplex", Except.error (GoError.foreign "EOF"), Context.root "bg"⟩ [] =
      some { reply := { status := 400, body := "Bad Request\n" }, logs := [],
             multiplexCalls := [], fetches := [] } ∧
    Handler { testEnv with jsonUnmarshal := fun _ => Except.error (GoError.foreign "syntax") }
        (New []) (fun _ => Except.ok "") none
        ⟨"POST", "/multiplex", Except.ok [123], Context.root "bg"⟩ [] =
      some { reply := { status := 400, body := "Bad Request\n" }, logs := [],
             multiplexCalls := [], fetches := [] } :=
  ⟨(handler_rejects testEnv (New []) (fun _ => Except.ok "") none
      ⟨"GET", "/multiplex", Except.ok [], Context.root "bg"⟩ []).1 (by decide),
    (handler_rejects testEnv (New []) (fun _ => Except.ok "") none
      ⟨"POST", "/multiplex", Except.error (GoError.foreign "EOF"), Context.root "bg"⟩ []).2
      rfl (Or.inl ⟨_, rfl⟩),
    (handler_rejects
      { testEnv with jsonUnmarshal := fun _ => Except.error (GoError.foreign "syntax") }
      (New []) (fun _ => Except.ok "") none
      ⟨"POST", "/multiplex", Except.ok [123], Context.root "bg"⟩ []).2
      rfl (Or.inr ⟨_, _, rfl, rfl⟩)⟩

/-- A field that no option of a list changes keeps its value through the list. -/
theorem foldl_frame {α : Type} (f : HTTPMultiplexer → α) (rest : List MuxOption)
    (h : ∀ o ∈ rest, ∀ x, f (o x) = f x) (m : HTTPMultiplexer) :
    f (rest.foldl (fun m opt => opt m) m) = f m := by
  induction rest generalizing m with
  | nil => rfl
  | cons o rest ih =>
    rw [List.foldl_cons, ih (fun o1 ho1 => h o1 (List.mem_cons_of_mem _ ho1))]
    exact h o (List.mem_cons_self _ _) m

/-- The value of `New` on a list with a marked option: the options before it, the option,
the options after it. -/
theorem new_split (opts rest : List MuxOption) (opt : MuxOption) :
    New (opts ++ opt :: rest) = rest.foldl (fun m o => o m) (opt (New opts)) := by
  unfold New
  rw [List.foldl_append, List.foldl_cons]

/-- C10. `New()` without options yields `maxURLs = 20`, `maxReqPerOp = 4`,
`reqTimeout = 1s`, the default logger and the default client; `New` applies its options in
order; each of the five options sets its own field to the given value and leaves the other
four fields as they were; and for each field the last option given for it (no later option
changing that field) determines its value. -/
theorem new_options :
    New [] = { maxURLs := 20, maxReqPerOp := 4, reqTimeout := 1000000000, log := slogDefault,
               httpClient := httpDefaultClient } ∧
    (∀ (opts : List MuxOption) (opt : MuxOption), New (opts ++ [opt]) = opt (New opts)) ∧
    (∀ (v : Int) (m : HTTPMultiplexer),
      WithMaxURLs v m = ⟨v, m.maxReqPerOp, m.reqTimeout, m.log, m.httpClient⟩ ∧
      WithMaxReqPerOp v m = ⟨m.maxURLs, v, m.reqTimeout, m.log, m.httpClient⟩ ∧
      WithReqTimout v m = ⟨m.maxURLs, m.maxReqPerOp, v, m.log, m.httpClient⟩) ∧
    (∀ (v : Client) (m : HTTPMultiplexer),
      WithHTTPClient v m = ⟨m.maxURLs, m.maxReqPerOp, m.reqTimeout, m.log, v⟩) ∧
    (∀ (v : Logger) (m : HTTPMultiplexer),
      WithLogger v m = ⟨m.maxURLs, m.maxReqPerOp, m.reqTimeout, v, m.httpClient⟩) ∧
    (∀ (opts rest : List MuxOption) (v : Int),
      ((∀ o ∈ rest, ∀ x, (o x).maxURLs = x.maxURLs) →
        (New (opts ++ WithMaxURLs v :: rest)).maxURLs = v) ∧
      ((∀ o ∈ rest, ∀ x, (o x).maxReqPerOp = x.maxReqPerOp) →
        (New (opts ++ WithMaxReqPerOp v :: rest)).maxReqPerOp = v) ∧
      ((∀ o ∈ rest, ∀ x, (o x).reqTimeout = x.reqTimeout) →
        (New (opts ++ WithReqTimout v :: rest)).reqTimeout = v)) ∧
    (∀ (opts rest : List MuxOption) (v : Client),
      (∀ o ∈ rest, ∀ x, (o x).httpClient = x.httpClient) →
        (New (opts ++ WithHTTPClient v :: rest)).httpClient = v) ∧
    (∀ (opts rest : List MuxOption) (v : Logger),
      (∀ o ∈ rest, ∀ x, (o x).log = x.log) →
        (New (opts ++ WithLogger v :: rest)).log = v) := by
  refine ⟨rfl, fun opts opt => ?_, fun v m => ⟨rfl, rfl, rfl⟩, fun v m => rfl,
    fun v m => rfl, fun opts rest v => ⟨fun h => ?_, fun h => ?_, fun h => ?_⟩,
    fun opts rest v h => ?_, fun opts rest v h => ?_⟩
  · rw [new_split]; rfl
  · rw [new_split, foldl_frame (fun x => x.maxURLs) rest h]; rfl
  · rw [new_split, foldl_frame (fun x => x.maxReqPerOp) rest h]; rfl
  · rw [new_split, foldl_frame (fun x => x.reqTimeout) rest h]; rfl
  · rw [new_split, foldl_frame (fun x => x.httpClient) rest h]; rfl
  · rw [new_split, foldl_frame (fun x => x.log) rest h]; rfl

/-- C10, at the option list of example/server/main.go followed by two more options: the
later `WithMaxURLs` wins and `WithLogger` leaves it alone. -/
theorem new_options_witness :
    (New ([WithMaxURLs 20, WithMaxReqPerOp 4, WithReqTimout Second] ++
      WithMaxURLs 5 :: [WithLogger ⟨"quiet"⟩])).maxURLs = 5 ∧
    New [WithMaxURLs 20, WithMaxReqPerOp 4, WithReqTimout Second, WithMaxURLs 5,
        WithLogger ⟨"quiet"⟩] =
      { maxURLs := 5, maxReqPerOp := 4, reqTimeout := 1000000000, log := ⟨"quiet"⟩,
        httpClient := httpDefaultClient } :=
  ⟨(new_options.2.2.2.2.2.1 [WithMaxURLs 20, WithMaxReqPerOp 4, WithReqTimout Second]
      [WithLogger ⟨"quiet"⟩] 5).1
      (fun o ho x => by rw [List.mem_singleton.1 ho]; rfl),
    rfl⟩

end httpmultiplexer
